import Mathlib

set_option maxHeartbeats 1000000

/-!
Formal model of the wake-me event primitive.

The repository implements an in-process synchronization primitive: an `Event`
holding a mutex-protected FIFO registry (intrusive doubly linked list) of
`Waker`s plus an approximate live-listener counter, where each listener is a
`Waker`/`WaitGuard` pair sharing a reference-counted atomic tri-state cell
(Waiting / Notified / Dropped).

The model below is a shallow embedding of the sequential (whole-operation
interleaving) behaviour of the code in src/lib.rs, src/waker.rs and
src/linked_list.rs.  Shared cells are modelled as a list of state bytes
(`Nat`), indexed by creation order; the registry is the list of cell indices
in FIFO order (head = front of the linked list); the `AtomicUsize` live
counter is a `Nat`.  Wake-target invocations (thread unpark / async wake) are
recorded as events, and every `debug_assert` in the source is recorded as a
boolean that is true when the assertion held.
-/

/-- Tri-state of a shared cell: `enum State` in src/waker.rs (repr(u8),
discriminants 0, 1, 2). -/
inductive State where
  | Waiting
  | Notified
  | Dropped
deriving DecidableEq, Repr

/-- Byte representation of a state, the `repr(u8)` discriminant used by every
atomic store and compare-exchange in src/waker.rs. -/
def State.toByte : State → Nat
  | .Waiting => 0
  | .Notified => 1
  | .Dropped => 2

/-- Conversion of a raw byte to the tri-state: `impl From<u8> for State` in
src/waker.rs (lines 14-23).  The wildcard arm of the Rust `match` panics with
"unknown state"; the panic is modelled as `none`. -/
def stateFromByte : Nat → Option State
  | 0 => some State.Waiting
  | 1 => some State.Notified
  | 2 => some State.Dropped
  | _ => none

/-- A wake-target invocation event: the wake target (thread unpark or async
wake handle) of cell `id` was invoked.  `delivered` is true when the
invocation came from the successful CAS Waiting→Notified inside
`Waker::wake` (an actual delivery), and false when it came from the
unconditional `wake_by_ref` in `impl Drop for Waker`. -/
structure Ev where
  id : Nat
  delivered : Bool
deriving DecidableEq, Repr

/-- A `compare_exchange(State::Waiting as u8, tgt, ...)` on a state byte:
returns the byte after the operation and whether the exchange succeeded. -/
def casFromWaiting (tgt b : Nat) : Nat × Bool :=
  if b = 0 then (tgt, true) else (b, false)

/-- Result of `Waker::wake` on one cell: the byte after the call, the
returned bool, the wake-target invocations performed, and whether the
`debug_assert_eq!(state.unwrap_err(), State::Dropped as u8)` on the failure
path held (true on the success path, which has no assertion). -/
structure WakeRes where
  state : Nat
  woke : Bool
  evs : List Ev
  assert_ok : Bool
deriving DecidableEq, Repr

/-- `Waker::wake` (src/waker.rs lines 84-97) acting on the cell `id` whose
current byte is `b`: CAS Waiting→Notified; on success invoke the wake target
and return true; on failure return false, asserting the observed byte was
Dropped. -/
def wakerWake (id b : Nat) : WakeRes :=
  let r := casFromWaiting 1 b
  if r.2 then { state := r.1, woke := true, evs := [⟨id, true⟩], assert_ok := true }
  else { state := r.1, woke := false, evs := [], assert_ok := r.1 == 2 }

/-- Result of `impl Drop for Waker` on one cell: the byte after the drop and
the wake-target invocations performed. -/
structure DropRes where
  state : Nat
  evs : List Ev
deriving DecidableEq, Repr

/-- `impl Drop for Waker` (src/waker.rs lines 53-63) acting on the cell `id`
whose current byte is `b`: best-effort CAS Waiting→Dropped whose result is
ignored, followed by an unconditional `wake_by_ref` of the wake target. -/
def wakerDrop (id b : Nat) : DropRes :=
  { state := (casFromWaiting 2 b).1, evs := [⟨id, false⟩] }

/-- Modelled from the spec: `Waker::is_dropped` is called by
`Event::notify_one` (src/lib.rs line 52) but is defined nowhere under src.
The spec (section 4.2) says the notify_one scan discards "any popped entry
whose state is no longer Waiting (already resolved or cancelled)", so the
predicate holds exactly when the cell byte is not the Waiting byte. -/
def is_dropped (b : Nat) : Bool := b != 0

/-- The `Event` of src/lib.rs together with the pool of all shared cells ever
created by its `listen` calls.  `cells` maps a cell index (creation order) to
its current state byte; `chain` is the mutex-protected linked list of
registered Wakers, as the FIFO list of their cell indices (head = front);
`num_listeners` is the `AtomicUsize` counter. -/
structure Event where
  cells : List Nat
  chain : List Nat
  num_listeners : Nat
deriving DecidableEq, Repr

/-- `Event::default()`: empty chain, zero counter, no cells created yet. -/
def Event.init : Event := ⟨[], [], 0⟩

/-- `Event::listen` (src/lib.rs lines 19-28): create a fresh Waiting cell
(its index is the number of cells created so far), increment the counter and
push the Waker onto the back of the chain.  The returned `WaitGuard` is
represented by the new cell's index. -/
def Event.listen (e : Event) : Event :=
  { cells := e.cells ++ [0]
    chain := e.chain ++ [e.cells.length]
    num_listeners := e.num_listeners + 1 }

/-- `impl Drop for WaitGuard` (src/waker.rs lines 129-133) for the guard of
cell `id`: an unconditional `store(State::Dropped as u8)`. -/
def Event.guard_drop (e : Event) (id : Nat) : Event :=
  { e with cells := e.cells.set id 2 }

/-- The pop loop of `Event::notify_one` (src/lib.rs lines 49-60): pop nodes
from the front of the chain, discarding every popped entry whose cell is no
longer Waiting, until a live entry is found or the chain is exhausted.
Returns the discarded indices in pop order, the winning index if one was
found, and the remaining chain. -/
def popLive (cells : List Nat) : List Nat → List Nat × Option Nat × List Nat
  | [] => ([], none, [])
  | id :: rest =>
    if is_dropped (cells.getD id 0) then
      let r := popLive cells rest
      (id :: r.1, r.2.1, r.2.2)
    else ([], some id, rest)

/-- Dropping a sequence of popped (owner-transferred) nodes in order: each
freed node runs `impl Drop for Waker` on its cell (src/waker.rs lines 53-63;
the freeing happens in `Event::notify_one`'s scan loop and in
`impl Drop for LinkedList`, src/linked_list.rs lines 39-49, which walks the
list front to back). -/
def dropNodes (cells : List Nat) : List Nat → List Nat × List Ev
  | [] => (cells, [])
  | id :: rest =>
    let r := wakerDrop id (cells.getD id 0)
    let r2 := dropNodes (cells.set id r.state) rest
    (r2.1, r.evs ++ r2.2)

/-- Result of one Event operation: the event afterwards, the wake-target
invocations it performed in order, and whether every `debug_assert` that ran
during it held. -/
structure Outcome where
  event : Event
  evs : List Ev
  asserts_ok : Bool
deriving DecidableEq, Repr

/-- `Event::notify_one` (src/lib.rs lines 41-64): return immediately when the
counter is zero; otherwise pop from the front discarding dead entries (each
discarded node is freed on the spot, running the Waker drop); if the chain is
exhausted return without touching the counter; otherwise subtract the number
of popped nodes, wake the winner, and free the winner's node after the wake. -/
def Event.notify_one (e : Event) : Outcome :=
  if e.num_listeners = 0 then ⟨e, [], true⟩
  else
    match popLive e.cells e.chain with
    | (ds, none, _) =>
      let d := dropNodes e.cells ds
      ⟨{ e with cells := d.1, chain := [] }, d.2, true⟩
    | (ds, some w, rem) =>
      let d := dropNodes e.cells ds
      let n2 := e.num_listeners - (ds.length + 1)
      let wr := wakerWake w (d.1.getD w 0)
      let dr := wakerDrop w wr.state
      ⟨{ cells := (d.1.set w wr.state).set w dr.state, chain := rem, num_listeners := n2 },
       d.2 ++ wr.evs ++ dr.evs, wr.assert_ok⟩

/-- The wake loop of `Event::notify_all` (src/lib.rs lines 78-80): invoke
`Waker::wake` on every node of the detached chain, front to back. -/
def wakeAll (cells : List Nat) : List Nat → List Nat × List Ev × Bool
  | [] => (cells, [], true)
  | id :: rest =>
    let wr := wakerWake id (cells.getD id 0)
    let r := wakeAll (cells.set id wr.state) rest
    (r.1, wr.evs ++ r.2.1, wr.assert_ok && r.2.2)

/-- `Event::notify_all` (src/lib.rs lines 66-81): return immediately when the
counter is zero; otherwise store zero into the counter, detach the whole
chain (`take_list`), invoke `Waker::wake` on every detached node, and then
drop the detached list, freeing every node (running each Waker drop, front to
back). -/
def Event.notify_all (e : Event) : Outcome :=
  if e.num_listeners = 0 then ⟨e, [], true⟩
  else
    let taken := e.chain
    let r := wakeAll e.cells taken
    let d := dropNodes r.1 taken
    ⟨{ cells := d.1, chain := [], num_listeners := 0 }, r.2.1 ++ d.2, r.2.2⟩

/-- One whole-operation step of the system: a listener registers, a
WaitGuard is dropped, or a producer notifies.  (`WaitGuard::wait` and
`WaitGuard::get_state` only load the cell and change nothing.) -/
inductive Op where
  | listen
  | guardDrop (id : Nat)
  | notifyOne
  | notifyAll
deriving DecidableEq, Repr

/-- Apply one operation to the event. -/
def Event.step (e : Event) : Op → Outcome
  | .listen => ⟨e.listen, [], true⟩
  | .guardDrop id => ⟨e.guard_drop id, [], true⟩
  | .notifyOne => e.notify_one
  | .notifyAll => e.notify_all

/-- Run a list of operations from a given event, concatenating the events
and conjoining the assertion outcomes. -/
def runFrom (e : Event) : List Op → Outcome
  | [] => ⟨e, [], true⟩
  | op :: ops =>
    let o := e.step op
    let r := runFrom o.event ops
    ⟨r.event, o.evs ++ r.evs, o.asserts_ok && r.asserts_ok⟩

/-- Run a list of operations from the freshly constructed event. -/
def run (ops : List Op) : Outcome := runFrom Event.init ops

/-- Environment of one `WaitGuard::wait_deadline` call: the state byte's
decoded value observed at the k-th iteration's `get_state` read, and the
value of `Instant::now()` after the k-th `park_timeout` returns (time is an
abstract `Nat` instant; `saturating_duration_since` is truncated `Nat`
subtraction). -/
structure WaitEnv where
  stateAt : Nat → State
  nowAfterPark : Nat → Nat

/-- The only error of the crate: `WaitError::Timeout` (src/waker.rs
lines 111-114). -/
inductive WaitErr where
  | Timeout
deriving DecidableEq, Repr

/-- The `while !max_park_duration.is_zero()` loop of
`WaitGuard::wait_deadline` (src/waker.rs lines 153-161): while the budget is
nonzero, read the state; if Waiting, park with the budget and recompute it as
`deadline.saturating_duration_since(Instant::now())`; otherwise return Ok.
When the budget reaches zero, return the Timeout error.  `fuel` bounds the
number of iterations (spurious wake-ups can make the Rust loop iterate
arbitrarily often); `none` means the fuel ran out with the loop still
running. -/
def waitDeadlineLoop (env : WaitEnv) (deadline : Nat) :
    Nat → Nat → Nat → Option (Except WaitErr Unit)
  | 0, _, _ => none
  | fuel + 1, k, maxPark =>
    if maxPark = 0 then some (Except.error WaitErr.Timeout)
    else
      match env.stateAt k with
      | State.Waiting =>
        waitDeadlineLoop env deadline fuel (k + 1) (deadline - env.nowAfterPark k)
      | _ => some (Except.ok ())

/-- `WaitGuard::wait_deadline` (src/waker.rs lines 151-163).  The initial
park budget is computed, exactly as the source writes it, as
`Instant::now().saturating_duration_since(deadline)` — that is `now0 -
deadline` truncated at zero — and only the in-loop recomputation uses
`deadline.saturating_duration_since(Instant::now())`.  `now0` is the value of
`Instant::now()` at entry. -/
def wait_deadline (env : WaitEnv) (now0 deadline fuel : Nat) :
    Option (Except WaitErr Unit) :=
  waitDeadlineLoop env deadline fuel 0 (now0 - deadline)

example : run [Op.listen] = ⟨⟨[0], [0], 1⟩, [], true⟩ := by decide
example : (run [Op.listen, Op.notifyOne]).event = ⟨[1], [], 0⟩ := by decide
example : (run [Op.listen, Op.guardDrop 0, Op.notifyOne]).event = ⟨[2], [], 1⟩ := by decide
example : (run [Op.listen, Op.notifyOne]).evs = [⟨0, true⟩, ⟨0, false⟩] := by decide

/-! Helper lemmas about list reads and writes. -/

theorem getD_set_self (l : List Nat) (i v : Nat) (h : i < l.length) :
    (l.set i v).getD i 0 = v := by
  simp [List.getD_eq_getElem?_getD, List.getElem?_set_self h]

theorem getD_set_ne (l : List Nat) (i j v : Nat) (h : i ≠ j) :
    (l.set i v).getD j 0 = l.getD j 0 := by
  simp [List.getD_eq_getElem?_getD, List.getElem?_set_ne h]

theorem getD_of_len_le (l : List Nat) (i : Nat) (h : l.length ≤ i) : l.getD i 0 = 0 := by
  simp [List.getD_eq_getElem?_getD, List.getElem?_eq_none h]

theorem set_getD_self (l : List Nat) (i : Nat) : l.set i (l.getD i 0) = l := by
  apply List.ext_getElem?
  intro j
  rw [List.getElem?_set]
  split
  · rename_i hij
    subst hij
    split
    · rename_i hlt
      simp [List.getD_eq_getElem?_getD, List.getElem?_eq_getElem hlt]
    · rename_i hge
      exact (List.getElem?_eq_none (Nat.le_of_not_lt hge)).symm
  · rfl

theorem getD_lt_three (l : List Nat) (i : Nat) (h : ∀ b ∈ l, b < 3) : l.getD i 0 < 3 := by
  by_cases hi : i < l.length
  · rw [List.getD_eq_getElem?_getD, List.getElem?_eq_getElem hi]
    exact h _ (List.getElem_mem hi)
  · rw [getD_of_len_le l i (Nat.le_of_not_lt hi)]
    omega

theorem getD_append_left (l l2 : List Nat) (i : Nat) (h : i < l.length) :
    (l ++ l2).getD i 0 = l.getD i 0 := by
  simp [List.getD_eq_getElem?_getD, List.getElem?_append, h]

theorem getD_append_len (l : List Nat) (v : Nat) : (l ++ [v]).getD l.length 0 = v := by
  simp [List.getD_eq_getElem?_getD, List.getElem?_concat_length]

/-! Characterization of the notify_one pop loop. -/

theorem popLive_some (cells : List Nat) :
    ∀ (reg ds rem : List Nat) (w : Nat), popLive cells reg = (ds, some w, rem) →
      reg = ds ++ w :: rem ∧ (∀ d ∈ ds, cells.getD d 0 ≠ 0) ∧ cells.getD w 0 = 0 := by
  intro reg
  induction reg with
  | nil => intro ds rem w h; simp [popLive] at h
  | cons id rest ih =>
    intro ds rem w h
    rw [popLive] at h
    by_cases hd : is_dropped (cells.getD id 0)
    · rw [if_pos hd] at h
      simp only [Prod.mk.injEq] at h
      obtain ⟨hds, hw, hrem⟩ := h
      have hrec : popLive cells rest = ((popLive cells rest).1, some w, rem) := by
        rw [← hw, ← hrem]
      obtain ⟨e1, e2, e3⟩ := ih (popLive cells rest).1 rem w hrec
      refine ⟨?_, ?_, e3⟩
      · rw [← hds, List.cons_append]
        exact congrArg _ e1
      · intro d hdmem
        rw [← hds] at hdmem
        rcases List.mem_cons.mp hdmem with h0 | h0
        · subst h0
          simpa [is_dropped] using hd
        · exact e2 d h0
    · rw [if_neg hd] at h
      simp only [Prod.mk.injEq] at h
      obtain ⟨hds, hw, hrem⟩ := h
      have hw2 : id = w := Option.some.inj hw
      subst hw2
      refine ⟨by rw [← hds, ← hrem]; simp,
        by intro d hdmem; rw [← hds] at hdmem; simp at hdmem, ?_⟩
      simpa [is_dropped] using hd

theorem popLive_none (cells : List Nat) :
    ∀ (reg ds rem : List Nat), popLive cells reg = (ds, none, rem) →
      reg = ds ∧ rem = [] ∧ (∀ d ∈ ds, cells.getD d 0 ≠ 0) := by
  intro reg
  induction reg with
  | nil =>
    intro ds rem h
    simp only [popLive, Prod.mk.injEq] at h
    obtain ⟨hds, _, hrem⟩ := h
    exact ⟨hds, hrem.symm, by intro d hd; rw [← hds] at hd; simp at hd⟩
  | cons id rest ih =>
    intro ds rem h
    rw [popLive] at h
    by_cases hd : is_dropped (cells.getD id 0)
    · rw [if_pos hd] at h
      simp only [Prod.mk.injEq] at h
      obtain ⟨hds, hw, hrem⟩ := h
      have hrec : popLive cells rest = ((popLive cells rest).1, none, rem) := by
        rw [← hw, ← hrem]
      obtain ⟨e1, e2, e3⟩ := ih (popLive cells rest).1 rem hrec
      refine ⟨?_, e2, ?_⟩
      · rw [← hds]
        exact congrArg _ e1
      · intro d hdmem
        rw [← hds] at hdmem
        rcases List.mem_cons.mp hdmem with h0 | h0
        · subst h0; simpa [is_dropped] using hd
        · exact e3 d h0
    · rw [if_neg hd] at h
      simp at h

theorem popLive_total (cells reg : List Nat) :
    popLive cells reg = ((popLive cells reg).1, (popLive cells reg).2.1,
      (popLive cells reg).2.2) := rfl

/-- When some chain entry is still Waiting, the pop loop finds a winner. -/
theorem popLive_finds (cells reg : List Nat) (id : Nat) (hmem : id ∈ reg)
    (hlive : cells.getD id 0 = 0) :
    ∃ ds w rem, popLive cells reg = (ds, some w, rem) := by
  rcases hw : (popLive cells reg).2.1 with _ | w
  · obtain ⟨e1, _, e3⟩ := popLive_none cells reg (popLive cells reg).1
      (popLive cells reg).2.2 (by rw [← hw])
    exact absurd hlive (e3 id (e1 ▸ hmem))
  · exact ⟨(popLive cells reg).1, w, (popLive cells reg).2.2, by rw [← hw]⟩

/-! Facts about freeing a sequence of nodes. -/

theorem dropNodes_evs : ∀ (ids cells : List Nat),
    (dropNodes cells ids).2 = ids.map (fun id => Ev.mk id false) := by
  intro ids
  induction ids with
  | nil => intro cells; rfl
  | cons id rest ih => intro cells; simp [dropNodes, wakerDrop, ih]

theorem dropNodes_length : ∀ (ids cells : List Nat),
    (dropNodes cells ids).1.length = cells.length := by
  intro ids
  induction ids with
  | nil => intro cells; rfl
  | cons id rest ih =>
    intro cells
    show (dropNodes (cells.set id (wakerDrop id (cells.getD id 0)).state) rest).1.length = _
    rw [ih, List.length_set]

theorem dropNodes_cells_of_ne : ∀ (ids cells : List Nat),
    (∀ id ∈ ids, cells.getD id 0 ≠ 0) → (dropNodes cells ids).1 = cells := by
  intro ids
  induction ids with
  | nil => intro cells _; rfl
  | cons id rest ih =>
    intro cells h
    have hb : cells.getD id 0 ≠ 0 := h id (by simp)
    have hset : cells.set id (wakerDrop id (cells.getD id 0)).state = cells := by
      show cells.set id (casFromWaiting 2 (cells.getD id 0)).1 = cells
      rw [casFromWaiting, if_neg hb]
      exact set_getD_self cells id
    show (dropNodes (cells.set id (wakerDrop id (cells.getD id 0)).state) rest).1 = cells
    rw [hset]
    exact ih cells (fun d hd => h d (List.mem_cons_of_mem _ hd))

theorem dropNodes_getD_of_ne : ∀ (ids cells : List Nat) (j : Nat),
    cells.getD j 0 ≠ 0 → (dropNodes cells ids).1.getD j 0 = cells.getD j 0 := by
  intro ids
  induction ids with
  | nil => intro cells j _; rfl
  | cons id rest ih =>
    intro cells j hj
    show (dropNodes (cells.set id (wakerDrop id (cells.getD id 0)).state) rest).1.getD j 0 = _
    by_cases hij : id = j
    · subst hij
      have hset : cells.set id (wakerDrop id (cells.getD id 0)).state = cells := by
        show cells.set id (casFromWaiting 2 (cells.getD id 0)).1 = cells
        rw [casFromWaiting, if_neg hj]
        exact set_getD_self cells id
      rw [hset]
      exact ih cells id hj
    · have hget : (cells.set id (wakerDrop id (cells.getD id 0)).state).getD j 0
          = cells.getD j 0 := getD_set_ne cells id j _ hij
      rw [ih _ j (by rw [hget]; exact hj), hget]

theorem dropNodes_mem_lt : ∀ (ids cells : List Nat), (∀ b ∈ cells, b < 3) →
    ∀ b ∈ (dropNodes cells ids).1, b < 3 := by
  intro ids
  induction ids with
  | nil => intro cells h; exact h
  | cons id rest ih =>
    intro cells h
    show ∀ b ∈ (dropNodes (cells.set id (wakerDrop id (cells.getD id 0)).state) rest).1, b < 3
    apply ih
    intro b hb
    rcases List.mem_or_eq_of_mem_set hb with h0 | h0
    · exact h b h0
    · subst h0
      show (casFromWaiting 2 (cells.getD id 0)).1 < 3
      rw [casFromWaiting]
      split
      · omega
      · exact getD_lt_three cells id h

/-! Facts about the notify_all wake loop. -/

theorem wakeAll_length : ∀ (ids cells : List Nat),
    (wakeAll cells ids).1.length = cells.length := by
  intro ids
  induction ids with
  | nil => intro cells; rfl
  | cons id rest ih =>
    intro cells
    show (wakeAll (cells.set id (wakerWake id (cells.getD id 0)).state) rest).1.length = _
    rw [ih, List.length_set]

theorem wakerWake_of_ne (id b : Nat) (h : b ≠ 0) :
    wakerWake id b = ⟨b, false, [], b == 2⟩ := by
  rw [wakerWake, casFromWaiting, if_neg h]
  rfl

theorem wakerWake_state_of_ne (id b : Nat) (h : b ≠ 0) : (wakerWake id b).state = b := by
  rw [wakerWake_of_ne id b h]

theorem wakerWake_zero (id : Nat) : wakerWake id 0 = ⟨1, true, [Ev.mk id true], true⟩ := rfl

theorem wakerWake_state_zero (id : Nat) : (wakerWake id 0).state = 1 := rfl

theorem wakeAll_getD_ne_zero : ∀ (ids cells : List Nat) (j : Nat),
    cells.getD j 0 ≠ 0 → (wakeAll cells ids).1.getD j 0 = cells.getD j 0 := by
  intro ids
  induction ids with
  | nil => intro cells j _; rfl
  | cons id rest ih =>
    intro cells j hj
    show (wakeAll (cells.set id (wakerWake id (cells.getD id 0)).state) rest).1.getD j 0 = _
    by_cases hij : id = j
    · subst hij
      have hset : cells.set id (wakerWake id (cells.getD id 0)).state = cells := by
        rw [wakerWake_state_of_ne id _ hj]
        exact set_getD_self cells id
      rw [hset]
      exact ih cells id hj
    · have hget : (cells.set id (wakerWake id (cells.getD id 0)).state).getD j 0
          = cells.getD j 0 := getD_set_ne cells id j _ hij
      rw [ih _ j (by rw [hget]; exact hj), hget]

theorem wakeAll_getD_not_mem : ∀ (ids cells : List Nat) (j : Nat),
    j ∉ ids → (wakeAll cells ids).1.getD j 0 = cells.getD j 0 := by
  intro ids
  induction ids with
  | nil => intro cells j _; rfl
  | cons id rest ih =>
    intro cells j hj
    have hij : id ≠ j := fun h0 => hj (h0 ▸ List.mem_cons_self id rest)
    have hrest : j ∉ rest := fun h0 => hj (List.mem_cons_of_mem _ h0)
    show (wakeAll (cells.set id (wakerWake id (cells.getD id 0)).state) rest).1.getD j 0 = _
    rw [ih _ j hrest]
    exact getD_set_ne cells id j _ hij

theorem wakeAll_getD_mem_zero : ∀ (ids cells : List Nat) (j : Nat), ids.Nodup →
    j ∈ ids → j < cells.length → cells.getD j 0 = 0 →
    (wakeAll cells ids).1.getD j 0 = 1 := by
  intro ids
  induction ids with
  | nil => intro cells j _ hmem; simp at hmem
  | cons id rest ih =>
    intro cells j hnd hmem hlen hz
    show (wakeAll (cells.set id (wakerWake id (cells.getD id 0)).state) rest).1.getD j 0 = 1
    rcases List.mem_cons.mp hmem with h0 | h0
    · subst h0
      have hset : (cells.set j (wakerWake j (cells.getD j 0)).state).getD j 0 = 1 := by
        rw [hz, wakerWake_state_zero]
        exact getD_set_self cells j 1 hlen
      rw [wakeAll_getD_ne_zero rest _ j (by rw [hset]; omega), hset]
    · have hij : id ≠ j := by
        intro he
        subst he
        exact (List.nodup_cons.mp hnd).1 h0
      have hget : (cells.set id (wakerWake id (cells.getD id 0)).state).getD j 0 = 0 := by
        rw [getD_set_ne cells id j _ hij]
        exact hz
      exact ih _ j (List.nodup_cons.mp hnd).2 h0 (by rw [List.length_set]; exact hlen) hget

theorem wakeAll_evs : ∀ (ids cells : List Nat), ids.Nodup →
    (wakeAll cells ids).2.1
      = (ids.filter (fun id => cells.getD id 0 == 0)).map (fun id => Ev.mk id true) := by
  intro ids
  induction ids with
  | nil => intro cells _; rfl
  | cons id rest ih =>
    intro cells hnd
    have hcong : ∀ x ∈ rest,
        ((cells.set id (wakerWake id (cells.getD id 0)).state).getD x 0 == 0)
          = (cells.getD x 0 == 0) := by
      intro x hx
      have hix : id ≠ x := by
        intro he
        subst he
        exact (List.nodup_cons.mp hnd).1 hx
      rw [getD_set_ne cells id x _ hix]
    by_cases hz : cells.getD id 0 = 0
    · have hevs : (wakerWake id (cells.getD id 0)).evs = [Ev.mk id true] := by
        rw [hz, wakerWake_zero]
      show (wakerWake id (cells.getD id 0)).evs
          ++ (wakeAll (cells.set id (wakerWake id (cells.getD id 0)).state) rest).2.1 = _
      rw [hevs, ih _ (List.nodup_cons.mp hnd).2, List.filter_congr hcong,
        List.filter_cons_of_pos (by rw [hz]; rfl), List.map_cons]
      rfl
    · have hevs : (wakerWake id (cells.getD id 0)).evs = [] := by
        rw [wakerWake_of_ne id _ hz]
      show (wakerWake id (cells.getD id 0)).evs
          ++ (wakeAll (cells.set id (wakerWake id (cells.getD id 0)).state) rest).2.1 = _
      rw [hevs, ih _ (List.nodup_cons.mp hnd).2, List.filter_congr hcong,
        List.filter_cons_of_neg (by simpa using hz)]
      rfl

theorem wakeAll_ok : ∀ (ids cells : List Nat), ids.Nodup →
    (∀ id ∈ ids, cells.getD id 0 = 0 ∨ cells.getD id 0 = 2) →
    (wakeAll cells ids).2.2 = true := by
  intro ids
  induction ids with
  | nil => intro cells _ _; rfl
  | cons id rest ih =>
    intro cells hnd h
    have hrest : ∀ x ∈ rest,
        (cells.set id (wakerWake id (cells.getD id 0)).state).getD x 0 = 0
        ∨ (cells.set id (wakerWake id (cells.getD id 0)).state).getD x 0 = 2 := by
      intro x hx
      have hix : id ≠ x := by
        intro he
        subst he
        exact (List.nodup_cons.mp hnd).1 hx
      rw [getD_set_ne cells id x _ hix]
      exact h x (List.mem_cons_of_mem _ hx)
    have hok : (wakerWake id (cells.getD id 0)).assert_ok = true := by
      rcases h id (List.mem_cons_self id rest) with h0 | h0
      · rw [h0, wakerWake_zero]
      · rw [h0, wakerWake_of_ne id 2 (by omega)]
        rfl
    show ((wakerWake id (cells.getD id 0)).assert_ok
        && (wakeAll (cells.set id (wakerWake id (cells.getD id 0)).state) rest).2.2) = true
    rw [hok, ih _ (List.nodup_cons.mp hnd).2 hrest]
    rfl

theorem wakeAll_mem_lt : ∀ (ids cells : List Nat), (∀ b ∈ cells, b < 3) →
    ∀ b ∈ (wakeAll cells ids).1, b < 3 := by
  intro ids
  induction ids with
  | nil => intro cells h; exact h
  | cons id rest ih =>
    intro cells h
    show ∀ b ∈ (wakeAll (cells.set id (wakerWake id (cells.getD id 0)).state) rest).1, b < 3
    apply ih
    intro b hb
    rcases List.mem_or_eq_of_mem_set hb with h0 | h0
    · exact h b h0
    · subst h0
      by_cases hz : cells.getD id 0 = 0
      · rw [hz, wakerWake_state_zero]
        omega
      · rw [wakerWake_state_of_ne id _ hz]
        exact getD_lt_three cells id h

/-! Evaluation lemmas for the Waker drop and closed forms of the notify operations. -/

theorem wakerDrop_of_ne (id b : Nat) (h : b ≠ 0) :
    wakerDrop id b = ⟨b, [Ev.mk id false]⟩ := by
  rw [wakerDrop, casFromWaiting, if_neg h]

theorem wakerDrop_zero (id : Nat) : wakerDrop id 0 = ⟨2, [Ev.mk id false]⟩ := rfl

theorem notify_one_zero (e : Event) (h : e.num_listeners = 0) :
    e.notify_one = ⟨e, [], true⟩ := by
  rw [Event.notify_one, if_pos h]

theorem notify_one_exhausted (e : Event) (hn : e.num_listeners ≠ 0) (ds rem : List Nat)
    (hp : popLive e.cells e.chain = (ds, none, rem)) :
    e.notify_one = ⟨⟨e.cells, [], e.num_listeners⟩,
      ds.map (fun id => Ev.mk id false), true⟩ := by
  obtain ⟨-, -, hds⟩ := popLive_none e.cells e.chain ds rem hp
  rw [Event.notify_one, if_neg hn, hp]
  show Outcome.mk ⟨(dropNodes e.cells ds).1, [], e.num_listeners⟩ (dropNodes e.cells ds).2 true
      = _
  rw [dropNodes_cells_of_ne ds e.cells hds, dropNodes_evs]

theorem notify_one_winner (e : Event) (hn : e.num_listeners ≠ 0) (ds rem : List Nat)
    (w : Nat) (hp : popLive e.cells e.chain = (ds, some w, rem)) :
    e.notify_one = ⟨⟨e.cells.set w 1, rem, e.num_listeners - (ds.length + 1)⟩,
      ds.map (fun id => Ev.mk id false) ++ [Ev.mk w true, Ev.mk w false], true⟩ := by
  obtain ⟨hsplit, hds, hw⟩ := popLive_some e.cells e.chain ds rem w hp
  rw [Event.notify_one, if_neg hn, hp]
  show Outcome.mk
      ⟨((dropNodes e.cells ds).1.set w
          (wakerWake w ((dropNodes e.cells ds).1.getD w 0)).state).set w
          (wakerDrop w (wakerWake w ((dropNodes e.cells ds).1.getD w 0)).state).state,
        rem, e.num_listeners - (ds.length + 1)⟩
      ((dropNodes e.cells ds).2 ++ (wakerWake w ((dropNodes e.cells ds).1.getD w 0)).evs
        ++ (wakerDrop w (wakerWake w ((dropNodes e.cells ds).1.getD w 0)).state).evs)
      (wakerWake w ((dropNodes e.cells ds).1.getD w 0)).assert_ok
      = _
  rw [dropNodes_cells_of_ne ds e.cells hds, dropNodes_evs, hw, wakerWake_zero]
  show Outcome.mk ⟨(e.cells.set w 1).set w (wakerDrop w 1).state, rem, _⟩
      (ds.map (fun id => Ev.mk id false) ++ [Ev.mk w true] ++ (wakerDrop w 1).evs) true = _
  rw [wakerDrop_of_ne w 1 (by omega), List.set_set, List.append_assoc]
  rfl

theorem notify_all_zero (e : Event) (h : e.num_listeners = 0) :
    e.notify_all = ⟨e, [], true⟩ := by
  rw [Event.notify_all, if_pos h]

theorem notify_all_of_chain (e : Event) (hn : e.num_listeners ≠ 0)
    (hnd : e.chain.Nodup) (hlen : ∀ id ∈ e.chain, id < e.cells.length)
    (hne1 : ∀ id ∈ e.chain, e.cells.getD id 0 ≠ 1) (hlt : ∀ b ∈ e.cells, b < 3) :
    e.notify_all = ⟨⟨(wakeAll e.cells e.chain).1, [], 0⟩,
      (e.chain.filter (fun id => e.cells.getD id 0 == 0)).map (fun id => Ev.mk id true)
        ++ e.chain.map (fun id => Ev.mk id false), true⟩ := by
  have hafter : ∀ id ∈ e.chain, (wakeAll e.cells e.chain).1.getD id 0 ≠ 0 := by
    intro id hid
    by_cases hz : e.cells.getD id 0 = 0
    · rw [wakeAll_getD_mem_zero e.chain e.cells id hnd hid (hlen id hid) hz]
      omega
    · rw [wakeAll_getD_ne_zero e.chain e.cells id hz]
      exact hz
  have hok : (wakeAll e.cells e.chain).2.2 = true := by
    apply wakeAll_ok e.chain e.cells hnd
    intro id hid
    have h3 := getD_lt_three e.cells id hlt
    have h1 := hne1 id hid
    omega
  rw [Event.notify_all, if_neg hn]
  show Outcome.mk
      ⟨(dropNodes (wakeAll e.cells e.chain).1 e.chain).1, [], 0⟩
      ((wakeAll e.cells e.chain).2.1 ++ (dropNodes (wakeAll e.cells e.chain).1 e.chain).2)
      (wakeAll e.cells e.chain).2.2
      = _
  rw [dropNodes_cells_of_ne e.chain _ hafter, dropNodes_evs, wakeAll_evs e.chain e.cells hnd,
    hok]

/-! The reachability invariant of the system. -/

/-- Invariant of every reachable Event: the live counter is at least the
chain length (so the fetch_sub in notify_one never underflows); every cell
byte is one of the three legal state bytes; every chain entry refers to an
existing cell that is not Notified (a cell is only ever notified after its
node has left the chain); and the chain lists cell indices in strictly
increasing registration order. -/
def EventInv (e : Event) : Prop :=
  e.chain.length ≤ e.num_listeners ∧
  (∀ b ∈ e.cells, b < 3) ∧
  (∀ id ∈ e.chain, id < e.cells.length ∧ e.cells.getD id 0 ≠ 1) ∧
  e.chain.Pairwise (· < ·)

theorem EventInv_init : EventInv Event.init := by
  refine ⟨by simp [Event.init], ?_, ?_, by simp [Event.init]⟩
  · intro b hb
    simp [Event.init] at hb
  · intro id hid
    simp [Event.init] at hid

theorem EventInv_listen (e : Event) (h : EventInv e) : EventInv e.listen := by
  obtain ⟨h1, h2, h3, h4⟩ := h
  refine ⟨?_, ?_, ?_, ?_⟩
  · show (e.chain ++ [e.cells.length]).length ≤ e.num_listeners + 1
    rw [List.length_append]
    simpa using h1
  · intro b hb
    rcases List.mem_append.mp hb with h0 | h0
    · exact h2 b h0
    · simp at h0
      omega
  · intro id hid
    rcases List.mem_append.mp hid with h0 | h0
    · obtain ⟨ha, hb⟩ := h3 id h0
      constructor
      · show id < (e.cells ++ [0]).length
        rw [List.length_append]
        omega
      · show (e.cells ++ [0]).getD id 0 ≠ 1
        rw [getD_append_left e.cells [0] id ha]
        exact hb
    · simp at h0
      subst h0
      constructor
      · show e.cells.length < (e.cells ++ [0]).length
        simp
      · show (e.cells ++ [0]).getD e.cells.length 0 ≠ 1
        rw [getD_append_len]
        omega
  · show (e.chain ++ [e.cells.length]).Pairwise (· < ·)
    rw [List.pairwise_append]
    refine ⟨h4, by simp, ?_⟩
    intro a ha b hb
    simp at hb
    subst hb
    exact (h3 a ha).1

theorem EventInv_guard_drop (e : Event) (id : Nat) (h : EventInv e) : EventInv (e.guard_drop id) := by
  obtain ⟨h1, h2, h3, h4⟩ := h
  show EventInv ⟨e.cells.set id 2, e.chain, e.num_listeners⟩
  refine ⟨h1, ?_, ?_, h4⟩
  · intro b hb
    rcases List.mem_or_eq_of_mem_set hb with h0 | h0
    · exact h2 b h0
    · omega
  · intro j hj
    obtain ⟨ha, hb⟩ := h3 j hj
    refine ⟨by rw [List.length_set]; exact ha, ?_⟩
    by_cases hij : id = j
    · subst hij
      rw [getD_set_self e.cells id 2 ha]
      omega
    · rw [getD_set_ne e.cells id j 2 hij]
      exact hb

theorem EventInv_notify_one (e : Event) (h : EventInv e) :
    EventInv e.notify_one.event ∧ e.notify_one.asserts_ok = true := by
  obtain ⟨h1, h2, h3, h4⟩ := h
  by_cases hn : e.num_listeners = 0
  · rw [notify_one_zero e hn]
    exact ⟨⟨h1, h2, h3, h4⟩, rfl⟩
  rcases hw : (popLive e.cells e.chain).2.1 with _ | w
  · have hp : popLive e.cells e.chain
        = ((popLive e.cells e.chain).1, none, (popLive e.cells e.chain).2.2) := by
      rw [← hw]
    rw [notify_one_exhausted e hn _ _ hp]
    refine ⟨⟨by simp, h2, by simp, by simp⟩, rfl⟩
  · have hp : popLive e.cells e.chain
        = ((popLive e.cells e.chain).1, some w, (popLive e.cells e.chain).2.2) := by
      rw [← hw]
    obtain ⟨hsplit, hds, hwz⟩ := popLive_some _ _ _ _ _ hp
    rw [notify_one_winner e hn _ _ _ hp]
    have hpw : ((popLive e.cells e.chain).1 ++ w :: (popLive e.cells e.chain).2.2).Pairwise
        (· < ·) := hsplit ▸ h4
    have h5 := (List.pairwise_append.mp hpw).2.1
    have hw_lt : ∀ j ∈ (popLive e.cells e.chain).2.2, w < j := (List.pairwise_cons.mp h5).1
    have hlen := congrArg List.length hsplit
    simp only [List.length_append, List.length_cons] at hlen
    refine ⟨⟨?_, ?_, ?_, ?_⟩, rfl⟩
    · show (popLive e.cells e.chain).2.2.length
          ≤ e.num_listeners - ((popLive e.cells e.chain).1.length + 1)
      omega
    · intro b hb
      rcases List.mem_or_eq_of_mem_set hb with h0 | h0
      · exact h2 b h0
      · omega
    · intro j hj
      have hjch : j ∈ e.chain := by
        rw [hsplit]
        exact List.mem_append_right _ (List.mem_cons_of_mem _ hj)
      obtain ⟨ha, hb⟩ := h3 j hjch
      refine ⟨by rw [List.length_set]; exact ha, ?_⟩
      have hwj : w ≠ j := Nat.ne_of_lt (hw_lt j hj)
      rw [getD_set_ne _ _ _ _ hwj]
      exact hb
    · exact (List.pairwise_cons.mp h5).2

theorem EventInv_notify_all (e : Event) (h : EventInv e) :
    EventInv e.notify_all.event ∧ e.notify_all.asserts_ok = true := by
  obtain ⟨h1, h2, h3, h4⟩ := h
  by_cases hn : e.num_listeners = 0
  · rw [notify_all_zero e hn]
    exact ⟨⟨h1, h2, h3, h4⟩, rfl⟩
  · have hnd : e.chain.Nodup := h4.imp (fun hab => Nat.ne_of_lt hab)
    rw [notify_all_of_chain e hn hnd (fun id hid => (h3 id hid).1)
      (fun id hid => (h3 id hid).2) h2]
    exact ⟨⟨by simp, wakeAll_mem_lt _ _ h2, by simp, by simp⟩, rfl⟩

theorem EventInv_step (e : Event) (op : Op) (h : EventInv e) :
    EventInv (e.step op).event ∧ (e.step op).asserts_ok = true := by
  cases op with
  | listen => exact ⟨EventInv_listen e h, rfl⟩
  | guardDrop id => exact ⟨EventInv_guard_drop e id h, rfl⟩
  | notifyOne => exact EventInv_notify_one e h
  | notifyAll => exact EventInv_notify_all e h

theorem EventInv_runFrom : ∀ (ops : List Op) (e : Event), EventInv e →
    EventInv (runFrom e ops).event ∧ (runFrom e ops).asserts_ok = true := by
  intro ops
  induction ops with
  | nil => intro e h; exact ⟨h, rfl⟩
  | cons op rest ih =>
    intro e h
    obtain ⟨hs, ha⟩ := EventInv_step e op h
    obtain ⟨hr, hra⟩ := ih _ hs
    show EventInv (runFrom (e.step op).event rest).event
        ∧ ((e.step op).asserts_ok && (runFrom (e.step op).event rest).asserts_ok) = true
    exact ⟨hr, by rw [ha, hra]; rfl⟩

/-- Every reachable state of the system satisfies the invariant. -/
theorem EventInv_run (ops : List Op) : EventInv (run ops).event :=
  (EventInv_runFrom ops Event.init EventInv_init).1

/-- Every debug assertion in the source holds on every run of the system. -/
theorem run_asserts_ok (ops : List Op) : (run ops).asserts_ok = true :=
  (EventInv_runFrom ops Event.init EventInv_init).2

/-! Further helper lemmas used by the claim theorems. -/

theorem getD_set_ne_zero (l : List Nat) (i j v : Nat) (hv : v ≠ 0)
    (h : l.getD j 0 ≠ 0) : (l.set i v).getD j 0 ≠ 0 := by
  rw [List.getD_eq_getElem?_getD, List.getElem?_set]
  split
  · rename_i hij
    subst hij
    split
    · simpa using hv
    · rename_i hge
      exact absurd (getD_of_len_le l i (Nat.le_of_not_lt hge)) h
  · rw [← List.getD_eq_getElem?_getD]
    exact h

theorem popLive_all_dropped (cells : List Nat) :
    ∀ reg : List Nat, (∀ id ∈ reg, cells.getD id 0 ≠ 0) →
      popLive cells reg = (reg, none, []) := by
  intro reg
  induction reg with
  | nil => intro _; rfl
  | cons id rest ih =>
    intro h
    have hd : is_dropped (cells.getD id 0) = true := by
      have := h id (List.mem_cons_self id rest)
      simpa [is_dropped] using this
    rw [popLive, if_pos hd, ih (fun d hd2 => h d (List.mem_cons_of_mem _ hd2))]

/-- One step never resets a cell byte to the Waiting byte: a cell whose byte
is nonzero keeps a nonzero byte. -/
theorem step_getD_ne_zero (e : Event) (op : Op) (j : Nat)
    (h : e.cells.getD j 0 ≠ 0) : (e.step op).event.cells.getD j 0 ≠ 0 := by
  have hj : j < e.cells.length := by
    by_contra hge
    exact h (getD_of_len_le e.cells j (Nat.le_of_not_lt hge))
  cases op with
  | listen =>
    show (e.cells ++ [0]).getD j 0 ≠ 0
    rw [getD_append_left e.cells [0] j hj]
    exact h
  | guardDrop id =>
    show (e.cells.set id 2).getD j 0 ≠ 0
    exact getD_set_ne_zero e.cells id j 2 (by omega) h
  | notifyOne =>
    show e.notify_one.event.cells.getD j 0 ≠ 0
    by_cases hn : e.num_listeners = 0
    · rw [notify_one_zero e hn]
      exact h
    rcases hw : (popLive e.cells e.chain).2.1 with _ | w
    · have hp : popLive e.cells e.chain
          = ((popLive e.cells e.chain).1, none, (popLive e.cells e.chain).2.2) := by
        rw [← hw]
      rw [notify_one_exhausted e hn _ _ hp]
      exact h
    · have hp : popLive e.cells e.chain
          = ((popLive e.cells e.chain).1, some w, (popLive e.cells e.chain).2.2) := by
        rw [← hw]
      rw [notify_one_winner e hn _ _ _ hp]
      exact getD_set_ne_zero e.cells w j 1 (by omega) h
  | notifyAll =>
    show e.notify_all.event.cells.getD j 0 ≠ 0
    by_cases hn : e.num_listeners = 0
    · rw [notify_all_zero e hn]
      exact h
    · rw [Event.notify_all, if_neg hn]
      show (dropNodes (wakeAll e.cells e.chain).1 e.chain).1.getD j 0 ≠ 0
      have h2 : (wakeAll e.cells e.chain).1.getD j 0 ≠ 0 := by
        rw [wakeAll_getD_ne_zero e.chain e.cells j h]
        exact h
      rw [dropNodes_getD_of_ne e.chain _ j h2]
      exact h2

theorem runFrom_event_append : ∀ (l1 : List Op) (e : Event) (l2 : List Op),
    (runFrom e (l1 ++ l2)).event = (runFrom (runFrom e l1).event l2).event := by
  intro l1
  induction l1 with
  | nil => intro e l2; rfl
  | cons op rest ih =>
    intro e l2
    show (runFrom (e.step op).event (rest ++ l2)).event = _
    rw [ih]
    rfl

theorem run_snoc_event (ops : List Op) (op : Op) :
    (run (ops ++ [op])).event = ((run ops).event.step op).event := by
  rw [run, runFrom_event_append]
  rfl

theorem filter_beq_length_of_nodup (l : List Nat) (hnd : l.Nodup) (a : Nat) (h : a ∈ l) :
    (l.filter (fun x => x == a)).length = 1 := by
  rw [← List.countP_eq_length_filter]
  exact List.count_eq_one_of_mem hnd h

theorem filter_beq_length_of_not_mem (l : List Nat) (a : Nat) (h : a ∉ l) :
    (l.filter (fun x => x == a)).length = 0 := by
  rw [← List.countP_eq_length_filter]
  exact List.count_eq_zero.mpr h

/-- `Event::notify_one` on an event whose chain is empty leaves everything
unchanged and performs no wake-target invocation. -/
theorem notify_one_empty_chain (e : Event) (hchain : e.chain = []) :
    e.notify_one = ⟨e, [], true⟩ := by
  obtain ⟨cs, ch, n⟩ := e
  simp only at hchain
  subst hchain
  by_cases hn : n = 0
  · exact notify_one_zero _ hn
  · exact notify_one_exhausted ⟨cs, [], n⟩ hn [] [] rfl

/-- `Event::notify_one` on an event whose chain entries are all no longer
Waiting empties the chain, leaves every cell and the counter unchanged, and
invokes (via the Waker drop of each freed node) the wake target of every
popped entry, delivering to none of them. -/
theorem notify_one_all_dead (e : Event) (hall : ∀ id ∈ e.chain, e.cells.getD id 0 ≠ 0)
    (hlen : e.chain.length ≤ e.num_listeners) :
    e.notify_one = ⟨⟨e.cells, [], e.num_listeners⟩,
      e.chain.map (fun id => Ev.mk id false), true⟩ := by
  obtain ⟨cs, ch, n⟩ := e
  simp only at hall hlen
  by_cases hn : n = 0
  · subst hn
    have hch : ch = [] := List.eq_nil_of_length_eq_zero (Nat.le_zero.mp hlen)
    subst hch
    rfl
  · exact notify_one_exhausted ⟨cs, ch, n⟩ hn ch []
      (popLive_all_dropped cs ch hall)

/-! Claim theorems. -/

/-- C1: `wait_deadline` is claimed to return Timeout iff the deadline
elapses while the state is still Waiting, and to succeed whenever the state
is Notified or Dropped before the deadline.  The source computes the initial
park budget as `Instant::now().saturating_duration_since(deadline)` (the
arguments are swapped relative to the in-loop recomputation), which is zero
for every strictly future deadline, so the loop body never runs and the call
returns Timeout at once — for every environment, every fuel and every state
schedule, even one in which the state is already Notified. -/
theorem c1_wait_deadline_bug (env : WaitEnv) (now0 deadline fuel : Nat)
    (h : now0 < deadline) :
    wait_deadline env now0 deadline (fuel + 1)
      = some (Except.error WaitErr.Timeout) := by
  rw [wait_deadline, Nat.sub_eq_zero_of_le (Nat.le_of_lt h), waitDeadlineLoop]
  rfl

/-- C1 witness: a cell already Notified, a deadline 50 time units in the
future — the code still returns the Timeout error immediately. -/
theorem c1_wait_deadline_bug_witness :
    0 < 50 ∧ wait_deadline ⟨fun _ => State.Notified, fun _ => 0⟩ 0 50 10
      = some (Except.error WaitErr.Timeout) :=
  ⟨by omega, c1_wait_deadline_bug ⟨fun _ => State.Notified, fun _ => 0⟩ 0 50 9 (by omega)⟩

/-- C2 counterexample: after `listen` and a guard drop the chain holds one
entry whose state is not Waiting and the live count is 1; the following
`notify_one` pops that entry (the chain becomes empty) yet decrements the
count by nothing, so the registry holds no Waiting entries while the
live count is still 1, not 0. -/
theorem c2_counterexample :
    (run [Op.listen, Op.guardDrop 0]).event.chain = [0]
    ∧ (run [Op.listen, Op.guardDrop 0]).event.cells = [2]
    ∧ (run [Op.listen, Op.guardDrop 0]).event.num_listeners = 1
    ∧ (run [Op.listen, Op.guardDrop 0, Op.notifyOne]).event.chain = []
    ∧ (run [Op.listen, Op.guardDrop 0, Op.notifyOne]).event.num_listeners = 1 := by
  decide

/-- C2 (amended): after any sequence of operations the live count is at
least the number of chain entries (hence the subtraction in notify_one never
underflows), notify_all always stores zero into the count, a notify_one that
finds a live entry decrements the count by exactly the number of entries it
popped, and a notify_one that exhausts the chain without finding a live
entry decrements nothing. -/
theorem c2_live_count (ops : List Op) :
    (run ops).event.chain.length ≤ (run ops).event.num_listeners
    ∧ (∀ e : Event, e.notify_all.event.num_listeners = 0)
    ∧ (∀ (ds rem : List Nat) (w : Nat),
        popLive (run ops).event.cells (run ops).event.chain = (ds, some w, rem) →
        ds.length + 1 ≤ (run ops).event.num_listeners
        ∧ (run ops).event.notify_one.event.num_listeners
            = (run ops).event.num_listeners - (ds.length + 1))
    ∧ (∀ ds rem : List Nat,
        popLive (run ops).event.cells (run ops).event.chain = (ds, none, rem) →
        (run ops).event.notify_one.event.num_listeners
          = (run ops).event.num_listeners) := by
  obtain ⟨h1, h2, h3, h4⟩ := EventInv_run ops
  refine ⟨h1, ?_, ?_, ?_⟩
  · intro e
    by_cases hn : e.num_listeners = 0
    · rw [notify_all_zero e hn]
      exact hn
    · rw [Event.notify_all, if_neg hn]
  · intro ds rem w hp
    obtain ⟨hsplit, -, -⟩ := popLive_some _ _ _ _ _ hp
    have hlen := congrArg List.length hsplit
    simp only [List.length_append, List.length_cons] at hlen
    have hn : (run ops).event.num_listeners ≠ 0 := by omega
    refine ⟨by omega, ?_⟩
    rw [notify_one_winner _ hn _ _ _ hp]
  · intro ds rem hp
    by_cases hn : (run ops).event.num_listeners = 0
    · rw [notify_one_zero _ hn]
    · rw [notify_one_exhausted _ hn _ _ hp]

/-- C2 witness: a single registered listener; notify_one pops one entry and
decrements the count from 1 to 0. -/
theorem c2_live_count_witness :
    popLive (run [Op.listen]).event.cells (run [Op.listen]).event.chain
      = ([], some 0, [])
    ∧ ([] : List Nat).length + 1 ≤ (run [Op.listen]).event.num_listeners
    ∧ (run [Op.listen]).event.notify_one.event.num_listeners
        = (run [Op.listen]).event.num_listeners - (([] : List Nat).length + 1) :=
  ⟨by decide, (c2_live_count [Op.listen]).2.2.1 [] [] 0 (by decide)⟩

/-- C3 counterexample: after `listen; notify_one` the single cell is
Notified (byte 1); dropping its WaitGuard afterwards overwrites the cell to
Dropped (byte 2), so a terminal state is left by an operation. -/
theorem c3_counterexample :
    (run [Op.listen, Op.notifyOne]).event.cells = [1]
    ∧ (run [Op.listen, Op.notifyOne, Op.guardDrop 0]).event.cells = [2] := by
  decide

/-- C3 (amended): `Waker::wake` and the Waker drop mutate the state only
through a CAS from Waiting, so they never change a Notified or Dropped cell;
no operation of the system ever returns a nonzero (non-Waiting) cell byte to
Waiting; but the WaitGuard drop stores Dropped unconditionally, so it
overwrites Notified with Dropped whenever it runs on a Notified cell. -/
theorem c3_terminal_states (ops : List Op) (op : Op) :
    (∀ id b : Nat, b ≠ 0 → (wakerWake id b).state = b)
    ∧ (∀ id b : Nat, b ≠ 0 → (wakerDrop id b).state = b)
    ∧ (∀ j : Nat, (run ops).event.cells.getD j 0 ≠ 0 →
        (run (ops ++ [op])).event.cells.getD j 0 ≠ 0)
    ∧ (∀ (e : Event) (id : Nat), id < e.cells.length →
        (e.guard_drop id).cells.getD id 0 = 2) := by
  refine ⟨?_, ?_, ?_, ?_⟩
  · intro id b hb
    exact wakerWake_state_of_ne id b hb
  · intro id b hb
    rw [wakerDrop_of_ne id b hb]
  · intro j h
    rw [run_snoc_event]
    exact step_getD_ne_zero _ op j h
  · intro e id hlen
    exact getD_set_self e.cells id 2 hlen

/-- C3 witness: concrete instances of every conjunct, including the
guard-drop overwriting the Notified cell produced by `listen; notify_one`. -/
theorem c3_terminal_states_witness :
    (wakerWake 5 1).state = 1
    ∧ (wakerDrop 5 1).state = 1
    ∧ (run ([Op.listen, Op.notifyOne] ++ [Op.notifyOne])).event.cells.getD 0 0 ≠ 0
    ∧ ((run [Op.listen, Op.notifyOne]).event.guard_drop 0).cells.getD 0 0 = 2 :=
  ⟨(c3_terminal_states [Op.listen, Op.notifyOne] Op.notifyOne).1 5 1 (by omega),
   (c3_terminal_states [Op.listen, Op.notifyOne] Op.notifyOne).2.1 5 1 (by omega),
   (c3_terminal_states [Op.listen, Op.notifyOne] Op.notifyOne).2.2.1 0 (by decide),
   (c3_terminal_states [Op.listen, Op.notifyOne] Op.notifyOne).2.2.2
     (run [Op.listen, Op.notifyOne]).event 0 (by decide)⟩

/-- C4 counterexample: a registry holding exactly one entry whose state is
no longer Waiting (byte 2): notify_one is not a no-op — it invokes the
discarded entry's wake target once (via the Waker drop), contradicting the
claim's "invokes no wake target". -/
theorem c4_counterexample :
    (run [Op.listen, Op.guardDrop 0]).event.chain = [0]
    ∧ (run [Op.listen, Op.guardDrop 0]).event.cells = [2]
    ∧ (run [Op.listen, Op.guardDrop 0]).event.notify_one.evs = [Ev.mk 0 false] := by
  decide

/-- C4 (amended): notify_one on an empty registry is a complete no-op (no
state change, no wake invocation); on a registry whose entries are all no
longer Waiting it changes no cell state, the counter is untouched and no
delivery happens, but it empties the registry and invokes the wake target of
every discarded entry once while freeing its node. -/
theorem c4_notify_one_noop (ops : List Op) :
    ((run ops).event.chain = [] →
      (run ops).event.notify_one = ⟨(run ops).event, [], true⟩)
    ∧ ((∀ id ∈ (run ops).event.chain, (run ops).event.cells.getD id 0 ≠ 0) →
      (run ops).event.notify_one
        = ⟨⟨(run ops).event.cells, [], (run ops).event.num_listeners⟩,
           (run ops).event.chain.map (fun id => Ev.mk id false), true⟩
      ∧ ∀ ev ∈ (run ops).event.notify_one.evs, ev.delivered = false) := by
  obtain ⟨h1, -, -, -⟩ := EventInv_run ops
  constructor
  · intro hchain
    exact notify_one_empty_chain _ hchain
  · intro hall
    have heq := notify_one_all_dead (run ops).event hall h1
    refine ⟨heq, ?_⟩
    intro ev hev
    rw [heq] at hev
    simp only [List.mem_map] at hev
    obtain ⟨a, -, ha⟩ := hev
    rw [← ha]

/-- C4 witness: the empty-registry no-op on a fresh event, and the
all-resolved case after `listen; guard drop`. -/
theorem c4_notify_one_noop_witness :
    (run []).event.notify_one = ⟨(run []).event, [], true⟩
    ∧ (run [Op.listen, Op.guardDrop 0]).event.notify_one
        = ⟨⟨(run [Op.listen, Op.guardDrop 0]).event.cells, [],
            (run [Op.listen, Op.guardDrop 0]).event.num_listeners⟩,
           (run [Op.listen, Op.guardDrop 0]).event.chain.map
             (fun id => Ev.mk id false), true⟩ :=
  ⟨(c4_notify_one_noop []).1 (by decide),
   ((c4_notify_one_noop [Op.listen, Op.guardDrop 0]).2 (by decide)).1⟩

/-- C5: `Waker::wake` is the CAS Waiting→Notified: from Waiting it stores
Notified, invokes the wake target once and returns true; from Dropped it
changes nothing, invokes nothing, returns false and its debug assertion
holds; from Notified it would likewise do nothing but its debug assertion
(observed prior state = Dropped) fails — and in every run of the system all
debug assertions hold, so a failed CAS inside the system only ever observes
Dropped. -/
theorem c5_wake_cas (id : Nat) :
    wakerWake id 0 = ⟨1, true, [Ev.mk id true], true⟩
    ∧ wakerWake id 2 = ⟨2, false, [], true⟩
    ∧ wakerWake id 1 = ⟨1, false, [], false⟩
    ∧ ∀ ops : List Op, (run ops).asserts_ok = true :=
  ⟨rfl, rfl, rfl, run_asserts_ok⟩

/-- C6: the Waker drop attempts the CAS Waiting→Dropped (the byte becomes 2
exactly when it was the Waiting byte, and is untouched otherwise) and,
regardless of whether that CAS succeeded, invokes the wake target exactly
once. -/
theorem c6_waker_drop (id b : Nat) :
    wakerDrop id b = ⟨if b = 0 then 2 else b, [Ev.mk id false]⟩
    ∧ (wakerDrop id b).evs.length = 1 := by
  constructor
  · rw [wakerDrop, casFromWaiting]
    split <;> rfl
  · rfl

/-- C7: when the chain holds at least one still-Waiting entry, notify_one
pops from the front in FIFO order: the chain splits as
discarded ++ winner :: rest, every discarded entry was no longer Waiting,
the winner is the first still-Waiting entry (and the least-indexed, i.e.
oldest, live listener); the call sets exactly the winner's cell to Notified,
leaves every other cell unchanged, keeps the rest of the chain, performs
exactly one delivering wake invocation, and the winner was registered before
the call (it is in the chain). -/
theorem c7_notify_one_fifo (ops : List Op) (id : Nat)
    (hmem : id ∈ (run ops).event.chain)
    (hlive : (run ops).event.cells.getD id 0 = 0) :
    ∃ ds w rem,
      popLive (run ops).event.cells (run ops).event.chain = (ds, some w, rem)
      ∧ (run ops).event.chain = ds ++ w :: rem
      ∧ (∀ d ∈ ds, (run ops).event.cells.getD d 0 ≠ 0)
      ∧ (run ops).event.cells.getD w 0 = 0
      ∧ (run ops).event.notify_one
          = ⟨⟨(run ops).event.cells.set w 1, rem,
              (run ops).event.num_listeners - (ds.length + 1)⟩,
             ds.map (fun d => Ev.mk d false) ++ [Ev.mk w true, Ev.mk w false], true⟩
      ∧ (run ops).event.notify_one.event.cells.getD w 0 = 1
      ∧ (∀ j : Nat, j ≠ w → (run ops).event.notify_one.event.cells.getD j 0
          = (run ops).event.cells.getD j 0)
      ∧ ((run ops).event.notify_one.evs.filter (fun ev => ev.delivered)).length = 1
      ∧ (∀ j ∈ (run ops).event.chain, (run ops).event.cells.getD j 0 = 0 → w ≤ j) := by
  obtain ⟨h1, h2, h3, h4⟩ := EventInv_run ops
  obtain ⟨ds, w, rem, hp⟩ := popLive_finds _ _ id hmem hlive
  obtain ⟨hsplit, hds, hw⟩ := popLive_some _ _ _ _ _ hp
  have hlen := congrArg List.length hsplit
  simp only [List.length_append, List.length_cons] at hlen
  have hn : (run ops).event.num_listeners ≠ 0 := by omega
  have heq := notify_one_winner _ hn _ _ _ hp
  have hwmem : w ∈ (run ops).event.chain := by
    rw [hsplit]
    exact List.mem_append_right _ (List.mem_cons_self w rem)
  have hwlen : w < (run ops).event.cells.length := (h3 w hwmem).1
  refine ⟨ds, w, rem, hp, hsplit, hds, hw, heq, ?_, ?_, ?_, ?_⟩
  · rw [heq]
    exact getD_set_self _ w 1 hwlen
  · intro j hj
    rw [heq]
    exact getD_set_ne _ w j 1 (fun hh => hj hh.symm)
  · rw [heq]
    show ((ds.map (fun d => Ev.mk d false)
        ++ [Ev.mk w true, Ev.mk w false]).filter (fun ev => ev.delivered)).length = 1
    rw [List.filter_append, List.filter_map]
    simp [Function.comp]
  · intro j hjmem hjz
    have hjnds : j ∉ ds := fun hin => (hds j hin) hjz
    have hjwr : j ∈ w :: rem := by
      rcases List.mem_append.mp (hsplit ▸ hjmem) with h0 | h0
      · exact absurd h0 hjnds
      · exact h0
    rcases List.mem_cons.mp hjwr with h0 | h0
    · omega
    · have hpw : (ds ++ w :: rem).Pairwise (· < ·) := hsplit ▸ h4
      have h5 := (List.pairwise_append.mp hpw).2.1
      exact Nat.le_of_lt ((List.pairwise_cons.mp h5).1 j h0)

/-- C7 witness: a single live listener; notify_one finds it at the front,
notifies it and performs exactly one delivery. -/
theorem c7_notify_one_fifo_witness :
    ∃ ds w rem,
      popLive (run [Op.listen]).event.cells (run [Op.listen]).event.chain
        = (ds, some w, rem)
      ∧ (run [Op.listen]).event.chain = ds ++ w :: rem
      ∧ (∀ d ∈ ds, (run [Op.listen]).event.cells.getD d 0 ≠ 0)
      ∧ (run [Op.listen]).event.cells.getD w 0 = 0
      ∧ (run [Op.listen]).event.notify_one
          = ⟨⟨(run [Op.listen]).event.cells.set w 1, rem,
              (run [Op.listen]).event.num_listeners - (ds.length + 1)⟩,
             ds.map (fun d => Ev.mk d false) ++ [Ev.mk w true, Ev.mk w false], true⟩
      ∧ (run [Op.listen]).event.notify_one.event.cells.getD w 0 = 1
      ∧ (∀ j : Nat, j ≠ w → (run [Op.listen]).event.notify_one.event.cells.getD j 0
          = (run [Op.listen]).event.cells.getD j 0)
      ∧ ((run [Op.listen]).event.notify_one.evs.filter
          (fun ev => ev.delivered)).length = 1
      ∧ (∀ j ∈ (run [Op.listen]).event.chain,
          (run [Op.listen]).event.cells.getD j 0 = 0 → w ≤ j) :=
  c7_notify_one_fifo [Op.listen] 0 (by decide) (by decide)

/-- C8: notify_all delivers to every currently live listener exactly once
(its cell becomes Notified and exactly one delivering invocation of its
target happens), empties the registry and zeroes the counter; an immediately
following notify_all is a complete no-op that invokes no wake target. -/
theorem c8_notify_all (ops : List Op) :
    (run ops).event.notify_all.event.chain = []
    ∧ (run ops).event.notify_all.event.num_listeners = 0
    ∧ (∀ id ∈ (run ops).event.chain, (run ops).event.cells.getD id 0 = 0 →
        (run ops).event.notify_all.event.cells.getD id 0 = 1
        ∧ ((run ops).event.notify_all.evs.filter
            (fun ev => ev.id == id && ev.delivered)).length = 1)
    ∧ (run ops).event.notify_all.event.notify_all
        = ⟨(run ops).event.notify_all.event, [], true⟩ := by
  obtain ⟨h1, h2, h3, h4⟩ := EventInv_run ops
  have hnd : (run ops).event.chain.Nodup := h4.imp (fun hab => Nat.ne_of_lt hab)
  by_cases hn : (run ops).event.num_listeners = 0
  · have hchain : (run ops).event.chain = [] :=
      List.eq_nil_of_length_eq_zero (by omega)
    rw [notify_all_zero _ hn]
    refine ⟨hchain, hn, ?_, notify_all_zero _ hn⟩
    intro id hid
    rw [hchain] at hid
    simp at hid
  · have heq := notify_all_of_chain _ hn hnd (fun id hid => (h3 id hid).1)
      (fun id hid => (h3 id hid).2) h2
    rw [heq]
    refine ⟨rfl, rfl, ?_, notify_all_zero _ rfl⟩
    intro id hid hz
    constructor
    · exact wakeAll_getD_mem_zero _ _ id hnd hid (h3 id hid).1 hz
    · show (((((run ops).event.chain.filter
          (fun i => (run ops).event.cells.getD i 0 == 0)).map (fun i => Ev.mk i true))
          ++ (run ops).event.chain.map (fun i => Ev.mk i false)).filter
          (fun ev => ev.id == id && ev.delivered)).length = 1
      rw [List.filter_append, List.filter_map, List.filter_map]
      simp only [Function.comp_def, Bool.and_true, Bool.and_false,
        List.filter_false, List.map_nil, List.append_nil, List.length_map]
      exact filter_beq_length_of_nodup _ (List.Nodup.filter _ hnd) id
        (List.mem_filter.mpr ⟨hid, by rw [hz]; rfl⟩)

/-- C8 witness: one live listener; notify_all notifies it exactly once, and
the second notify_all is a no-op. -/
theorem c8_notify_all_witness :
    (run [Op.listen]).event.notify_all.event.chain = []
    ∧ (run [Op.listen]).event.notify_all.event.num_listeners = 0
    ∧ ((run [Op.listen]).event.notify_all.event.cells.getD 0 0 = 1
        ∧ ((run [Op.listen]).event.notify_all.evs.filter
            (fun ev => ev.id == 0 && ev.delivered)).length = 1)
    ∧ (run [Op.listen]).event.notify_all.event.notify_all
        = ⟨(run [Op.listen]).event.notify_all.event, [], true⟩ :=
  ⟨(c8_notify_all [Op.listen]).1, (c8_notify_all [Op.listen]).2.1,
   (c8_notify_all [Op.listen]).2.2.1 0 (by decide) (by decide),
   (c8_notify_all [Op.listen]).2.2.2⟩

/-- C9: the byte-to-state conversion succeeds exactly on the bytes 0, 1 and
2 (Waiting, Notified, Dropped) and hits the panic arm (modelled as `none`)
on every other byte; and every cell byte reachable in any run of the system
decodes successfully, so the panic arm of get_state is unreachable. -/
theorem c9_state_decode (ops : List Op) :
    stateFromByte 0 = some State.Waiting
    ∧ stateFromByte 1 = some State.Notified
    ∧ stateFromByte 2 = some State.Dropped
    ∧ (∀ b : Nat, 3 ≤ b → stateFromByte b = none)
    ∧ (∀ b ∈ (run ops).event.cells, (stateFromByte b).isSome = true) := by
  refine ⟨rfl, rfl, rfl, ?_, ?_⟩
  · intro b hb
    obtain ⟨n, rfl⟩ : ∃ n, b = n + 3 := ⟨b - 3, by omega⟩
    rfl
  · intro b hb
    have h3 := (EventInv_run ops).2.1 b hb
    have hcase : b = 0 ∨ b = 1 ∨ b = 2 := by omega
    rcases hcase with rfl | rfl | rfl <;> rfl

/-- C9 witness: the byte 7 is rejected, and the one cell byte reachable
after a single listen decodes successfully. -/
theorem c9_state_decode_witness :
    stateFromByte 7 = none
    ∧ (stateFromByte ((run [Op.listen]).event.cells.getD 0 0)).isSome = true :=
  ⟨(c9_state_decode []).2.2.2.1 7 (by omega),
   (c9_state_decode [Op.listen]).2.2.2.2 0 (by decide)⟩

/-- C10: the Waker drop invokes the wake target unconditionally — also when
`wake()` already succeeded (byte 1) — so the listener delivered to by
notify_one has its target invoked a second, non-delivering time when the
popped node is freed, after its cell is already Notified; and every live
listener delivered to by notify_all likewise gets exactly two invocations of
its target (one delivering, one from the drop of the detached chain). -/
theorem c10_drop_reinvokes (ops : List Op) :
    (∀ id b : Nat, (wakerDrop id b).evs = [Ev.mk id false])
    ∧ (∀ (ds rem : List Nat) (w : Nat),
        popLive (run ops).event.cells (run ops).event.chain = (ds, some w, rem) →
        (run ops).event.notify_one.evs
            = ds.map (fun d => Ev.mk d false) ++ [Ev.mk w true, Ev.mk w false]
        ∧ ((run ops).event.notify_one.evs.filter (fun ev => ev.id == w)).length = 2
        ∧ (run ops).event.notify_one.event.cells.getD w 0 = 1)
    ∧ (∀ id ∈ (run ops).event.chain, (run ops).event.cells.getD id 0 = 0 →
        ((run ops).event.notify_all.evs.filter
          (fun ev => ev.id == id)).length = 2) := by
  obtain ⟨h1, h2, h3, h4⟩ := EventInv_run ops
  have hnd : (run ops).event.chain.Nodup := h4.imp (fun hab => Nat.ne_of_lt hab)
  refine ⟨fun id b => rfl, ?_, ?_⟩
  · intro ds rem w hp
    obtain ⟨hsplit, hds, hw⟩ := popLive_some _ _ _ _ _ hp
    have hlen := congrArg List.length hsplit
    simp only [List.length_append, List.length_cons] at hlen
    have hn : (run ops).event.num_listeners ≠ 0 := by omega
    have heq := notify_one_winner _ hn _ _ _ hp
    have hwmem : w ∈ (run ops).event.chain := by
      rw [hsplit]
      exact List.mem_append_right _ (List.mem_cons_self w rem)
    have hwlen : w < (run ops).event.cells.length := (h3 w hwmem).1
    have hwnds : w ∉ ds := fun hin => (hds w hin) hw
    refine ⟨by rw [heq], ?_, ?_⟩
    · rw [heq]
      show ((ds.map (fun d => Ev.mk d false)
          ++ [Ev.mk w true, Ev.mk w false]).filter (fun ev => ev.id == w)).length = 2
      rw [List.filter_append, List.filter_map, List.length_append, List.length_map]
      simp only [Function.comp_def]
      rw [filter_beq_length_of_not_mem ds w hwnds]
      simp
    · rw [heq]
      exact getD_set_self _ w 1 hwlen
  · intro id hid hz
    by_cases hn : (run ops).event.num_listeners = 0
    · exfalso
      have hchain : (run ops).event.chain = [] :=
        List.eq_nil_of_length_eq_zero (by omega)
      rw [hchain] at hid
      simp at hid
    · have heq := notify_all_of_chain _ hn hnd (fun i hi => (h3 i hi).1)
        (fun i hi => (h3 i hi).2) h2
      rw [heq]
      show (((((run ops).event.chain.filter
          (fun i => (run ops).event.cells.getD i 0 == 0)).map (fun i => Ev.mk i true))
          ++ (run ops).event.chain.map (fun i => Ev.mk i false)).filter
          (fun ev => ev.id == id)).length = 2
      rw [List.filter_append, List.filter_map, List.filter_map, List.length_append,
        List.length_map, List.length_map]
      simp only [Function.comp_def]
      rw [filter_beq_length_of_nodup _ (List.Nodup.filter _ hnd) id
          (List.mem_filter.mpr ⟨hid, by rw [hz]; rfl⟩),
        filter_beq_length_of_nodup _ hnd id hid]

/-- C10 witness: the deliveree of both notify_one and notify_all on a
single-listener event gets its wake target invoked exactly twice, the
second time non-delivering with the cell already Notified. -/
theorem c10_drop_reinvokes_witness :
    (wakerDrop 3 1).evs = [Ev.mk 3 false]
    ∧ ((run [Op.listen]).event.notify_one.evs
        = [Ev.mk 0 true, Ev.mk 0 false]
       ∧ ((run [Op.listen]).event.notify_one.evs.filter
            (fun ev => ev.id == 0)).length = 2
       ∧ (run [Op.listen]).event.notify_one.event.cells.getD 0 0 = 1)
    ∧ ((run [Op.listen]).event.notify_all.evs.filter
        (fun ev => ev.id == 0)).length = 2 :=
  ⟨(c10_drop_reinvokes []).1 3 1,
   (c10_drop_reinvokes [Op.listen]).2.1 [] [] 0 (by decide),
   (c10_drop_reinvokes [Op.listen]).2.2 0 (by decide) (by decide)⟩
